import Mathlib

/-
Verification development for the render-bridge process (processor_app.py).

The embedding models, from the source:
  - the inbound TCP stream as a list of segments, each segment being the
    bytes available to one recv call (recv returns at most the requested
    number of bytes and only from the head segment; an exhausted stream
    models a closed connection, whose reads return zero bytes);
  - one iteration of Server.run (lines 54-90) as a step function over a
    server state holding the remaining stream, the conversion queue, the
    ordered list of socket sends, and the frame snapshot;
  - the conversion task, the frame snapshot, make_offscreen and the
    connection retry loop of Server.init.
Bytes are Nat values below 256; multi-byte integers are little-endian as
produced by struct.pack with native byte order on x86.
-/

namespace ProcessorApp

/-- One socket recv of at most n bytes: returns the first min(n, len) bytes
of the head segment, keeping the unread remainder of that segment at the
head.  An empty stream models a closed connection: the read returns zero
bytes (Python recv returning an empty bytes object). -/
def recvRaw (n : Nat) (s : List (List Nat)) : List Nat × List (List Nat) :=
  match s with
  | [] => ([], [])
  | seg :: rest =>
      let chunk := seg.take n
      let left := seg.drop n
      (chunk, if left.isEmpty then rest else left :: rest)

/-- A stream holding the byte list bs as a single segment (single-shot
delivery); the empty byte list is the closed stream. -/
def seg1 (bs : List Nat) : List (List Nat) :=
  if bs.isEmpty then [] else [bs]

/-- Little-endian value of a byte list, as read by struct.unpack with
formats =H (2 bytes) and =I (4 bytes). -/
def leNat (bs : List Nat) : Nat :=
  bs.foldr (fun b acc => b + 256 * acc) 0

/-- Two little-endian bytes of n, as written by struct.pack format =H. -/
def enc16 (n : Nat) : List Nat :=
  [n % 256, n / 256 % 256]

/-- Four little-endian bytes of n, as written by struct.pack format =I. -/
def enc32 (n : Nat) : List Nat :=
  [n % 256, n / 256 % 256, n / 65536 % 256, n / 16777216 % 256]

/-- The body-accumulation loop of Server.run lines 60-64: while bytes are
still needed, issue one recv for the remainder and append what it returns.
The fuel argument bounds how many recv calls the model may issue; the Python
loop has no such bound, so non-termination of the loop appears here as the
result none for every fuel value. -/
def recvExact : Nat → Nat → List (List Nat) → List Nat →
    Option (List Nat × List (List Nat))
  | _, 0, s, acc => some (acc, s)
  | 0, _ + 1, _, _ => none
  | fuel + 1, need + 1, s, acc =>
      let r := recvRaw (need + 1) s
      recvExact fuel (need + 1 - r.1.length) r.2 (acc ++ r.1)

/-- The frame snapshot: image_width, image_height, image_data of App. -/
structure Snap where
  width : Nat
  height : Nat
  pixels : List Nat
  deriving DecidableEq, Repr

/-- State of the server loop: remaining inbound stream, the conversion
queue (front = oldest), the ordered list of socket sends so far, and the
frame snapshot read by update_handler. -/
structure SState (α : Type) where
  inp : List (List Nat)
  queue : List α
  out : List (List Nat)
  snap : Snap
  deriving DecidableEq, Repr

/-- Result of one iteration of Server.run: next (loop continues with the
new state), crash (an exception such as struct.error ends the receive
loop), or spin (the body loop issued every recv the fuel allowed without
completing). -/
inductive StepOut (α : Type) where
  | next (st : SState α) : StepOut α
  | crash : StepOut α
  | spin : StepOut α
  deriving DecidableEq, Repr

/-- One iteration of Server.run (lines 54-90).  jdec models
json.loads composed with ascii decoding, applied to the received body; the
claims quantify over valid payloads, on which it succeeds.  struct.unpack
raises unless its buffer has exactly the format size, struct.pack format =H
raises unless the value is below 65536; both appear as crash. -/
def serverStep {α : Type} (jdec : List Nat → α) (fuel : Nat) (st : SState α) :
    StepOut α :=
  let r2 := recvRaw 2 st.inp
  if r2.1.length = 2 then
    let msgId := leNat r2.1
    if msgId = 0 then
      let r4 := recvRaw 4 r2.2
      if r4.1.length = 4 then
        match recvExact fuel (leNat r4.1) r4.2 [] with
        | none => .spin
        | some (body, s3) =>
            .next ⟨s3, st.queue ++ [jdec body], st.out ++ [[0]], st.snap⟩
      else .crash
    else if msgId = 1 then
      let r4 := recvRaw 4 r2.2
      if r4.1.length = 4 then
        if st.snap.width < 65536 ∧ st.snap.height < 65536 then
          .next ⟨r4.2, st.queue,
                 st.out ++ [enc16 st.snap.width ++ enc16 st.snap.height,
                            st.snap.pixels],
                 st.snap⟩
        else .crash
      else .crash
    else
      .next ⟨r2.2, st.queue, st.out ++ [[0]], st.snap⟩
  else .crash

/-- Iterate serverStep n times, stopping early on crash or spin. -/
def serverRunN {α : Type} (jdec : List Nat → α) (fuel : Nat) :
    Nat → SState α → StepOut α
  | 0, st => .next st
  | n + 1, st =>
      match serverStep jdec fuel st with
      | .next st' => serverRunN jdec fuel n st'
      | r => r

/-- A peer-side message: a content update carrying a payload, or a frame
request carrying four delta-time bytes. -/
inductive Msg where
  | content (payload : List Nat) : Msg
  | frame (dt : List Nat) : Msg
  deriving DecidableEq, Repr

/-- Wire encoding of one message per the protocol table: 2-byte id, then
for id 0 a 4-byte length and the payload, for id 1 the 4 delta-time
bytes. -/
def encodeMsg : Msg → List Nat
  | .content p => enc16 0 ++ enc32 p.length ++ p
  | .frame d => enc16 1 ++ d

/-- Wire encoding of a message sequence, concatenated in order. -/
def encodeMsgs : List Msg → List Nat
  | [] => []
  | m :: ms => encodeMsg m ++ encodeMsgs ms

/-- The content payloads of a message sequence, in order. -/
def payloadsOf : List Msg → List (List Nat)
  | [] => []
  | .content p :: ms => p :: payloadsOf ms
  | .frame _ :: ms => payloadsOf ms

/-- The sends Server.run answers a message sequence with: one 1-byte 0 ack
per content update; a 4-byte width-height header followed by the pixel
bytes per frame request. -/
def responsesFor (snap : Snap) : List Msg → List (List Nat)
  | [] => []
  | .content _ :: ms => [0] :: responsesFor snap ms
  | .frame _ :: ms =>
      (enc16 snap.width ++ enc16 snap.height) :: snap.pixels ::
        responsesFor snap ms

/-- Well-formedness of a peer message: a content payload fits the 4-byte
length field; a frame request carries exactly 4 delta-time bytes. -/
def wfMsg : Msg → Prop
  | .content p => p.length < 4294967296
  | .frame d => d.length = 4

instance : DecidablePred wfMsg := fun m =>
  match m with
  | .content p => inferInstanceAs (Decidable (p.length < 4294967296))
  | .frame d => inferInstanceAs (Decidable (d.length = 4))

/-- The drain loop of the conversion task (lines 124-125): while the queue
is not empty, take the front element; one call removes every queued
payload in FIFO order and leaves the queue empty. -/
def drainAll {α : Type} (q : List α) : List α × List α :=
  (q, [])

/-- The producer side of the conversion queue: handle_data (lines 223-224)
puts one decoded payload at the back. -/
def handle_data {α : Type} (q : List α) (data : α) : List α :=
  q ++ [data]

/-- A concrete message sequence used as a test vector: two content updates
around one frame request. -/
def msgsW : List Msg :=
  [Msg.content [123, 125], Msg.frame [0, 0, 64, 60], Msg.content [91, 93]]

/-- A concrete snapshot used as a test vector: 2 by 1 RGB image. -/
def snapW : Snap :=
  ⟨2, 1, [10, 20, 30, 40, 50, 60]⟩

/-- Lock-relevant events of the two contexts that touch image_lock. -/
inductive LockEvent where
  | acquire : LockEvent
  | readSnap : LockEvent
  | sendHeader : LockEvent
  | sendPixels : LockEvent
  | copyOut : LockEvent
  | release : LockEvent
  deriving DecidableEq, Repr

/-- Annotate each event of a straight-line trace with whether image_lock
is held while that event executes (for acquire and release, the state the
event establishes). -/
def lockAnnotate : Bool → List LockEvent → List (LockEvent × Bool)
  | _, [] => []
  | held, e :: es =>
      let held' :=
        match e with
        | LockEvent.acquire => true
        | LockEvent.release => false
        | _ => held
      (e, held') :: lockAnnotate held' es

/-- The frame-request branch of Server.run, lines 74-80, in statement
order: acquire image_lock; read the snapshot via update_handler; send the
width-height header; sendall the pixel bytes; release image_lock. -/
def frameRequestTrace : List LockEvent :=
  [LockEvent.acquire, LockEvent.readSnap, LockEvent.sendHeader,
   LockEvent.sendPixels, LockEvent.release]

/-- The snapshot-publishing tail of the conversion task, lines 150-155, in
statement order: acquire image_lock; copy width, height and pixel data
out of the texture; release image_lock. -/
def publishTrace : List LockEvent :=
  [LockEvent.acquire, LockEvent.copyOut, LockEvent.release]

/-- The claim that a trace performs its socket sends outside the critical
section of image_lock. -/
def sendsOutsideLock (tr : List LockEvent) : Prop :=
  ∀ p ∈ lockAnnotate false tr,
    (p.1 = LockEvent.sendHeader ∨ p.1 = LockEvent.sendPixels) → p.2 = false

instance (tr : List LockEvent) : Decidable (sendsOutsideLock tr) := by
  unfold sendsOutsideLock
  infer_instance

/-- Result of the connection loop of Server.init: either connected after
some number of attempts, or the process exited with the given status after
the recorded attempts and 1-second sleeps. -/
inductive ConnResult where
  | connected (attemptsMade : Nat) (sleeps : Nat) : ConnResult
  | exited (status : Int) (attemptsMade : Nat) (sleeps : Nat) : ConnResult
  deriving DecidableEq, Repr

/-- The retry loop of Server.init lines 38-49: while attempts remain, try
to connect and break on success; on failure print, sleep one second and
decrement; the while-else branch runs sys.exit(-1) when the budget is
exhausted without a break.  ok i tells whether attempt number i (0-based)
succeeds. -/
def connectAttempts (ok : Nat → Bool) : Nat → Nat → Nat → ConnResult
  | 0, made, slept => .exited (-1) made slept
  | r + 1, made, slept =>
      if ok made then .connected (made + 1) slept
      else connectAttempts ok r (made + 1) (slept + 1)

/-- Server.init starts the loop with remaining_attempts = 3. -/
def serverConnect (ok : Nat → Bool) : ConnResult :=
  connectAttempts ok 3 0 0

/-- Lines 151-155: under image_lock the conversion task replaces all three
snapshot fields from the texture in one critical section. -/
def publish (w h : Nat) (px : List Nat) (_prev : Snap) : Snap :=
  ⟨w, h, px⟩

/-- Lines 226-227: get_img returns the current snapshot triple, ignoring
the delta-time argument. -/
def get_img (s : Snap) (_dt : List Nat) : Nat × Nat × List Nat :=
  (s.width, s.height, s.pixels)

/-- State of the offscreen surface: the current window as (width, height,
identity) when one exists, how many expensive reallocations have happened,
and a counter issuing fresh identities. -/
structure SurfaceState where
  win : Option (Nat × Nat × Nat)
  allocCount : Nat
  nextId : Nat
  deriving DecidableEq, Repr

/-- Lines 177-221: make_offscreen returns immediately when a window exists
with the requested size; otherwise it tears everything down and allocates
a new output (a new surface identity, one more expensive reallocation). -/
def make_offscreen (sx sy : Nat) (st : SurfaceState) : SurfaceState :=
  match st.win with
  | some (w, h, _) =>
      if w = sx ∧ h = sy then st
      else ⟨some (sx, sy, st.nextId), st.allocCount + 1, st.nextId + 1⟩
  | none => ⟨some (sx, sy, st.nextId), st.allocCount + 1, st.nextId + 1⟩

/-- A lookup in a string-keyed dictionary, modelled as the first matching
entry of an association list. -/
def dictLookup {α : Type} (k : String) (d : List (String × α)) : Option α :=
  (d.find? (fun p => p.1 = k)).map (fun p => p.2)

/-- Membership test, as the Python operator in applied to a dictionary. -/
def dictContains {α : Type} (k : String) (d : List (String × α)) : Bool :=
  (dictLookup k d).isSome

/-- Lines 129-132 of the conversion task: when the viewport directives
viewd contain the key width, the code reads both viewd at width and viewd
at height unconditionally and resizes; a missing key raises KeyError,
modelled as the error case. -/
def applyViewportSize (viewd : List (String × Nat)) (surf : SurfaceState) :
    Except String SurfaceState :=
  if dictContains "width" viewd then
    match dictLookup "width" viewd, dictLookup "height" viewd with
    | some w, some h => .ok (make_offscreen w h surf)
    | some _, none => .error "KeyError: height"
    | none, _ => .error "KeyError: width"
  else .ok surf

/-- Rational 4 by 4 matrices, indexed by 0..3; entries at larger indices
are irrelevant.  The wire carries exact matrix entries; the renderer
inversion is modelled over the rationals to state exactness. -/
abbrev Mat4 := Nat → Nat → ℚ

/-- Matrix product restricted to the 4 by 4 block. -/
def mul4 (A B : Mat4) : Mat4 := fun i j =>
  A i 0 * B 0 j + A i 1 * B 1 j + A i 2 * B 2 j + A i 3 * B 3 j

/-- The 4 by 4 identity. -/
def id4 : Mat4 := fun i j => if i = j then 1 else 0

/-- Determinant of a 3 by 3 matrix given entrywise. -/
def det3q (a b c d e f g h i : ℚ) : ℚ :=
  a * e * i - a * f * h - b * d * i + b * f * g + c * d * h - c * e * g

/-- Determinant of the 4 by 4 block by cofactor expansion along row 0. -/
def det4q (M : Mat4) : ℚ :=
    M 0 0 * det3q (M 1 1) (M 1 2) (M 1 3) (M 2 1) (M 2 2) (M 2 3)
                  (M 3 1) (M 3 2) (M 3 3)
  - M 0 1 * det3q (M 1 0) (M 1 2) (M 1 3) (M 2 0) (M 2 2) (M 2 3)
                  (M 3 0) (M 3 2) (M 3 3)
  + M 0 2 * det3q (M 1 0) (M 1 1) (M 1 3) (M 2 0) (M 2 1) (M 2 3)
                  (M 3 0) (M 3 1) (M 3 3)
  - M 0 3 * det3q (M 1 0) (M 1 1) (M 1 2) (M 2 0) (M 2 1) (M 2 2)
                  (M 3 0) (M 3 1) (M 3 2)

/-- Index renumbering that skips index k. -/
def skipIdx (k t : Nat) : Nat :=
  if t < k then t else t + 1

/-- Determinant of the 3 by 3 minor obtained by deleting row r and
column c. -/
def minor3 (M : Mat4) (r c : Nat) : ℚ :=
  det3q (M (skipIdx r 0) (skipIdx c 0)) (M (skipIdx r 0) (skipIdx c 1))
        (M (skipIdx r 0) (skipIdx c 2))
        (M (skipIdx r 1) (skipIdx c 0)) (M (skipIdx r 1) (skipIdx c 1))
        (M (skipIdx r 1) (skipIdx c 2))
        (M (skipIdx r 2) (skipIdx c 0)) (M (skipIdx r 2) (skipIdx c 1))
        (M (skipIdx r 2) (skipIdx c 2))

/-- The adjugate of the 4 by 4 block: entry (i, j) is the cofactor at
(j, i). -/
def adj4q (M : Mat4) : Mat4 := fun i j =>
  (if (i + j) % 2 = 0 then 1 else -1) * minor3 M j i

/-- Exact inverse of the 4 by 4 block: adjugate over determinant.  Models
the renderer call invert_in_place on the loaded view matrix as exact
rational inversion. -/
def invert4 (M : Mat4) : Mat4 := fun i j =>
  adj4q M i j / det4q M

/-- Lines 136-141: the view matrix from the payload is inverted in place
and the result installed on the lens; the installed model transform is the
inverse of the wire matrix. -/
def installedModelTransform (M : Mat4) : Mat4 :=
  invert4 M

/-- A known invertible test matrix (determinant 3). -/
def testMat : Mat4 := fun i j =>
  if i = j then (if i = 0 then 3 else 1)
  else if i = 0 ∧ j = 1 then 2
  else if i = 2 ∧ j = 3 then 5
  else 0

/-- A recv on a single-segment stream returns the first n bytes and keeps
the remainder as a single-segment stream. -/
theorem recvRaw_seg1 (n : Nat) (bs : List Nat) :
    recvRaw n (seg1 bs) = (bs.take n, seg1 (bs.drop n)) := by
  cases bs with
  | nil => simp [recvRaw, seg1]
  | cons b tl => simp [recvRaw, seg1]

theorem enc16_length (n : Nat) : (enc16 n).length = 2 := rfl

theorem enc32_length (n : Nat) : (enc32 n).length = 4 := rfl

theorem leNat_enc16 (n : Nat) (h : n < 65536) : leNat (enc16 n) = n := by
  simp [leNat, enc16]
  omega

theorem leNat_enc32 (n : Nat) (h : n < 4294967296) : leNat (enc32 n) = n := by
  simp [leNat, enc32]
  omega

theorem recvExact_need_zero {fuel : Nat} {s : List (List Nat)}
    {acc : List Nat} : recvExact fuel 0 s acc = some (acc, s) := by
  cases fuel <;> rfl

theorem recvExact_succ (fuel need : Nat) (s : List (List Nat))
    (acc : List Nat) :
    recvExact (fuel + 1) (need + 1) s acc =
      recvExact fuel (need + 1 - (recvRaw (need + 1) s).1.length)
        (recvRaw (need + 1) s).2 (acc ++ (recvRaw (need + 1) s).1) := rfl

/-- A body followed by more stream content, delivered in one segment, is
consumed by a single recv of the accumulation loop. -/
theorem recvExact_single (p rest : List Nat) :
    recvExact 1 p.length (seg1 (p ++ rest)) [] = some (p, seg1 rest) := by
  cases p with
  | nil => simpa using recvExact_need_zero
  | cons b tl =>
      have hlen : (b :: tl).length = tl.length + 1 := rfl
      rw [hlen, recvExact_succ, recvRaw_seg1]
      have htake : ((b :: tl) ++ rest).take (tl.length + 1) = b :: tl :=
        List.take_left' rfl
      have hdrop : ((b :: tl) ++ rest).drop (tl.length + 1) = rest :=
        List.drop_left' rfl
      rw [htake, hdrop]
      simp [recvExact_need_zero]

/-- On a closed connection every recv of the accumulation loop returns
zero bytes, so no fuel bound suffices while bytes are still needed: the
Python loop never exits. -/
theorem recvExact_closed (fuel need : Nat) (acc : List Nat) :
    recvExact fuel (need + 1) [] acc = none := by
  induction fuel generalizing acc with
  | zero => rfl
  | succ n ih =>
      rw [recvExact_succ]
      simpa [recvRaw] using ih acc

/-- Processing one content-update message delivered in the same segment as
the rest of the stream: the payload is queued, one 1-byte 0 ack is sent,
and exactly the message bytes are consumed. -/
theorem serverStep_content {α : Type} (jdec : List Nat → α) (p rest : List Nat)
    (q : List α) (out : List (List Nat)) (snap : Snap)
    (hp : p.length < 4294967296) :
    serverStep jdec 1
        ⟨seg1 (enc16 0 ++ (enc32 p.length ++ (p ++ rest))), q, out, snap⟩ =
      .next ⟨seg1 rest, q ++ [jdec p], out ++ [[0]], snap⟩ := by
  have htake2 : (enc16 0 ++ (enc32 p.length ++ (p ++ rest))).take 2 = enc16 0 :=
    List.take_left' (enc16_length 0)
  have hdrop2 :
      (enc16 0 ++ (enc32 p.length ++ (p ++ rest))).drop 2 =
        enc32 p.length ++ (p ++ rest) :=
    List.drop_left' (enc16_length 0)
  have htake4 : (enc32 p.length ++ (p ++ rest)).take 4 = enc32 p.length :=
    List.take_left' (enc32_length p.length)
  have hdrop4 : (enc32 p.length ++ (p ++ rest)).drop 4 = p ++ rest :=
    List.drop_left' (enc32_length p.length)
  simp only [serverStep, recvRaw_seg1, htake2, hdrop2, htake4, hdrop4,
    enc16_length, enc32_length, leNat_enc16 0 (by norm_num),
    leNat_enc32 p.length hp, recvExact_single]
  simp

/-- Processing one frame-request message delivered in the same segment as
the rest of the stream: the current snapshot is sent as a width-height
header followed by the pixel bytes, and the queue and snapshot are
untouched. -/
theorem serverStep_frame {α : Type} (jdec : List Nat → α) (fuel : Nat)
    (d rest : List Nat) (q : List α) (out : List (List Nat)) (snap : Snap)
    (hd : d.length = 4) (hw : snap.width < 65536) (hh : snap.height < 65536) :
    serverStep jdec fuel ⟨seg1 (enc16 1 ++ (d ++ rest)), q, out, snap⟩ =
      .next ⟨seg1 rest, q,
             out ++ [enc16 snap.width ++ enc16 snap.height, snap.pixels],
             snap⟩ := by
  have htake2 : (enc16 1 ++ (d ++ rest)).take 2 = enc16 1 :=
    List.take_left' (enc16_length 1)
  have hdrop2 : (enc16 1 ++ (d ++ rest)).drop 2 = d ++ rest :=
    List.drop_left' (enc16_length 1)
  have htake4 : (d ++ rest).take 4 = d := List.take_left' hd
  have hdrop4 : (d ++ rest).drop 4 = rest := List.drop_left' hd
  simp only [serverStep, recvRaw_seg1, htake2, hdrop2, htake4, hdrop4,
    enc16_length, leNat_enc16 1 (by norm_num), hd]
  simp [hw, hh]

/-- Running the receive loop over the single-shot encoding of a message
sequence consumes the whole stream, appends every content payload to the
conversion queue in arrival order, and emits exactly the per-message
responses in order. -/
theorem serverRunN_msgs {α : Type} (jdec : List Nat → α) (msgs : List Msg)
    (q : List α) (out : List (List Nat)) (snap : Snap)
    (hwf : ∀ m ∈ msgs, wfMsg m)
    (hw : snap.width < 65536) (hh : snap.height < 65536) :
    serverRunN jdec 1 msgs.length ⟨seg1 (encodeMsgs msgs), q, out, snap⟩ =
      .next ⟨[], q ++ (payloadsOf msgs).map jdec,
             out ++ responsesFor snap msgs, snap⟩ := by
  induction msgs generalizing q out with
  | nil => simp [serverRunN, encodeMsgs, payloadsOf, responsesFor, seg1]
  | cons m ms ih =>
      have hms : ∀ x ∈ ms, wfMsg x := fun x hx => hwf x (by simp [hx])
      cases m with
      | content p =>
          have hp : p.length < 4294967296 :=
            hwf (Msg.content p) (by simp)
          have hstream : encodeMsgs (Msg.content p :: ms) =
              enc16 0 ++ (enc32 p.length ++ (p ++ encodeMsgs ms)) := by
            simp [encodeMsgs, encodeMsg, List.append_assoc]
          rw [List.length_cons, serverRunN, hstream,
            serverStep_content jdec p (encodeMsgs ms) q out snap hp]
          show serverRunN jdec 1 ms.length
            ⟨seg1 (encodeMsgs ms), q ++ [jdec p], out ++ [[0]], snap⟩ = _
          rw [ih (q ++ [jdec p]) (out ++ [[0]]) hms]
          simp [payloadsOf, responsesFor]
      | frame d =>
          have hd : d.length = 4 := hwf (Msg.frame d) (by simp)
          have hstream : encodeMsgs (Msg.frame d :: ms) =
              enc16 1 ++ (d ++ encodeMsgs ms) := by
            simp [encodeMsgs, encodeMsg, List.append_assoc]
          rw [List.length_cons, serverRunN, hstream,
            serverStep_frame jdec 1 d (encodeMsgs ms) q out snap hd hw hh]
          show serverRunN jdec 1 ms.length
            ⟨seg1 (encodeMsgs ms), q,
             out ++ [enc16 snap.width ++ enc16 snap.height, snap.pixels],
             snap⟩ = _
          rw [ih q
            (out ++ [enc16 snap.width ++ enc16 snap.height, snap.pixels]) hms]
          simp [payloadsOf, responsesFor]

/-- The accumulation loop gathers a body from arbitrarily many nonempty
fragments, one recv per fragment, ending with the stream exhausted. -/
theorem recvExact_fragments (frags : List (List Nat)) (acc : List Nat)
    (hne : ∀ f ∈ frags, f ≠ []) :
    recvExact frags.length frags.flatten.length frags acc =
      some (acc ++ frags.flatten, []) := by
  induction frags generalizing acc with
  | nil => simpa using recvExact_need_zero
  | cons f fs ih =>
      obtain ⟨b, tl, rfl⟩ := List.exists_cons_of_ne_nil (hne f (by simp))
      have hlen : ((b :: tl) :: fs).flatten.length =
          (tl.length + fs.flatten.length) + 1 := by
        simp [List.flatten]
      have hchunk : (b :: tl).take (tl.length + fs.flatten.length + 1) =
          b :: tl := List.take_of_length_le (by simp)
      have hdropf : (b :: tl).drop (tl.length + fs.flatten.length + 1) = [] :=
        List.drop_eq_nil_of_le (by simp)
      rw [hlen, List.length_cons, recvExact_succ]
      have hraw : recvRaw (tl.length + fs.flatten.length + 1) ((b :: tl) :: fs)
          = (b :: tl, fs) := by
        simp [recvRaw, hchunk, hdropf]
      rw [hraw]
      have hneed : tl.length + fs.flatten.length + 1 - (b :: tl).length =
          fs.flatten.length := by
        simp
      rw [hneed, ih (acc ++ (b :: tl)) (fun x hx => hne x (by simp [hx]))]
      simp [List.flatten]

/-- Laplace expansion correctness: the adjugate is a left quasi-inverse on
the 4 by 4 block. -/
theorem mul4_adj4q_left (M : Mat4) (i j : Nat) (hi : i < 4) (hj : j < 4) :
    mul4 (adj4q M) M i j = if i = j then det4q M else 0 := by
  interval_cases i <;> interval_cases j <;>
    simp [mul4, adj4q, minor3, skipIdx, det4q, det3q] <;> ring

/-- Laplace expansion correctness: the adjugate is a right quasi-inverse on
the 4 by 4 block. -/
theorem mul4_adj4q_right (M : Mat4) (i j : Nat) (hi : i < 4) (hj : j < 4) :
    mul4 M (adj4q M) i j = if i = j then det4q M else 0 := by
  interval_cases i <;> interval_cases j <;>
    simp [mul4, adj4q, minor3, skipIdx, det4q, det3q] <;> ring

theorem mul4_invert4_left (M : Mat4) (hdet : det4q M ≠ 0) (i j : Nat)
    (hi : i < 4) (hj : j < 4) :
    mul4 (invert4 M) M i j = id4 i j := by
  have hstep : mul4 (invert4 M) M i j = mul4 (adj4q M) M i j / det4q M := by
    simp only [mul4, invert4]
    ring
  rw [hstep, mul4_adj4q_left M i j hi hj]
  by_cases hij : i = j <;> simp [id4, hij, div_self hdet]

theorem mul4_invert4_right (M : Mat4) (hdet : det4q M ≠ 0) (i j : Nat)
    (hi : i < 4) (hj : j < 4) :
    mul4 M (invert4 M) i j = id4 i j := by
  have hstep : mul4 M (invert4 M) i j = mul4 M (adj4q M) i j / det4q M := by
    simp only [mul4, invert4]
    ring
  rw [hstep, mul4_adj4q_right M i j hi hj]
  by_cases hij : i = j <;> simp [id4, hij, div_self hdet]

/-- C1: for every sequence of valid content-update messages sent over the
connection, possibly interleaved with frame requests, each content update
yields exactly one 1-byte 0 response (responsesFor lists one ack per
content message, in order), and the next drainAll of the conversion queue
returns exactly the decoded payloads, each once, in send order, leaving
the queue empty. -/
theorem content_updates_acked_and_drained_in_order {α : Type}
    (jdec : List Nat → α) (msgs : List Msg) (snap : Snap)
    (hwf : ∀ m ∈ msgs, wfMsg m)
    (hw : snap.width < 65536) (hh : snap.height < 65536) :
    serverRunN jdec 1 msgs.length ⟨seg1 (encodeMsgs msgs), [], [], snap⟩ =
      .next ⟨[], (payloadsOf msgs).map jdec, responsesFor snap msgs, snap⟩ ∧
    (drainAll ((payloadsOf msgs).map jdec)).1 = (payloadsOf msgs).map jdec ∧
    (drainAll ((payloadsOf msgs).map jdec)).2 = [] := by
  refine ⟨?_, rfl, rfl⟩
  simpa using serverRunN_msgs jdec msgs [] [] snap hwf hw hh

theorem content_updates_acked_and_drained_in_order_witness :
    (∀ m ∈ msgsW, wfMsg m) ∧ snapW.width < 65536 ∧ snapW.height < 65536 ∧
    (serverRunN (fun b => b) 1 msgsW.length
        ⟨seg1 (encodeMsgs msgsW), [], [], snapW⟩ =
      .next ⟨[], (payloadsOf msgsW).map (fun b => b),
             responsesFor snapW msgsW, snapW⟩ ∧
    (drainAll ((payloadsOf msgsW).map (fun b => b))).1 =
      (payloadsOf msgsW).map (fun b => b) ∧
    (drainAll ((payloadsOf msgsW).map (fun b => b))).2 = []) :=
  ⟨by decide, by decide, by decide,
   content_updates_acked_and_drained_in_order (fun b => b) msgsW snapW
     (by decide) (by decide) (by decide)⟩

/-- C2 counterexample: the claim that the socket writes answering a frame
request happen outside the critical section of image_lock is false on the
code: in Server.run lines 74-80 both sends sit between acquire and
release. -/
theorem frame_sends_inside_lock_counterexample :
    ¬ sendsOutsideLock frameRequestTrace := by decide

/-- C2 amended: on the frame-request path the header and pixel sends occur
with image_lock held (the lock is held across the network writes), while
the render-tick context holds the lock only for the copy out of the
texture. -/
theorem lock_held_across_frame_sends :
    (lockAnnotate false frameRequestTrace).filter
        (fun p => p.1 = LockEvent.sendHeader ∨ p.1 = LockEvent.sendPixels) =
      [(LockEvent.sendHeader, true), (LockEvent.sendPixels, true)] ∧
    lockAnnotate false publishTrace =
      [(LockEvent.acquire, true), (LockEvent.copyOut, true),
       (LockEvent.release, false)] := by
  decide

/-- C3 counterexample: the same content-update message delivered one byte
per recv crashes the receive loop (the 2-byte id recv is not looped, so a
short read makes struct.unpack raise), while single-shot delivery decodes
it; so decode is not insensitive to stream fragmentation. -/
theorem fragmented_header_counterexample :
    serverStep (fun b => b) 10
        ⟨(encodeMsg (Msg.content [65])).map (fun b => [b]), [], [],
         ⟨1, 1, [7, 7, 7]⟩⟩ = .crash ∧
    serverStep (fun b => b) 10
        ⟨seg1 (encodeMsg (Msg.content [65])), [], [], ⟨1, 1, [7, 7, 7]⟩⟩ =
      .next ⟨[], [[65]], [[0]], ⟨1, 1, [7, 7, 7]⟩⟩ ∧
    serverStep (fun b => b) 10
        ⟨(encodeMsg (Msg.content [65])).map (fun b => [b]), [], [],
         ⟨1, 1, [7, 7, 7]⟩⟩ ≠
      serverStep (fun b => b) 10
        ⟨seg1 (encodeMsg (Msg.content [65])), [], [], ⟨1, 1, [7, 7, 7]⟩⟩ := by
  decide

/-- C3 amended: only the L body bytes accumulate across arbitrarily many
short reads: when the 2-byte id and 4-byte length each arrive in one recv,
a body delivered in any number of nonempty fragments decodes to the same
message, with the same queue and ack effect, as single-shot delivery. -/
theorem body_fragmentation_insensitive {α : Type} (jdec : List Nat → α)
    (p : List Nat) (frags : List (List Nat)) (q : List α)
    (out : List (List Nat)) (snap : Snap)
    (hfr : frags.flatten = p) (hne : ∀ f ∈ frags, f ≠ [])
    (hp : p.length < 4294967296) :
    serverStep jdec frags.length
        ⟨(enc16 0 ++ enc32 p.length) :: frags, q, out, snap⟩ =
      .next ⟨[], q ++ [jdec p], out ++ [[0]], snap⟩ ∧
    serverStep jdec 1
        ⟨seg1 (enc16 0 ++ (enc32 p.length ++ (p ++ []))), q, out, snap⟩ =
      .next ⟨seg1 [], q ++ [jdec p], out ++ [[0]], snap⟩ := by
  constructor
  · have hraw2 : recvRaw 2 ((enc16 0 ++ enc32 p.length) :: frags) =
        (enc16 0, enc32 p.length :: frags) := rfl
    have hraw4 : recvRaw 4 (enc32 p.length :: frags) =
        (enc32 p.length, frags) := rfl
    have hbody : recvExact frags.length (leNat (enc32 p.length)) frags [] =
        some (p, []) := by
      rw [leNat_enc32 p.length hp, ← hfr]
      simpa using recvExact_fragments frags [] hne
    simp only [serverStep, hraw2, hraw4, enc16_length, enc32_length,
      leNat_enc16 0 (by norm_num), hbody]
    simp
  · rw [serverStep_content jdec p [] q out snap hp]

theorem body_fragmentation_insensitive_witness :
    ([[10], [20, 30]] : List (List Nat)).flatten = [10, 20, 30] ∧
    (∀ f ∈ ([[10], [20, 30]] : List (List Nat)), f ≠ []) ∧
    ([10, 20, 30] : List Nat).length < 4294967296 ∧
    (serverStep (fun b => b) ([[10], [20, 30]] : List (List Nat)).length
        ⟨(enc16 0 ++ enc32 ([10, 20, 30] : List Nat).length) ::
           [[10], [20, 30]], [], [], snapW⟩ =
      .next ⟨[], [] ++ [[10, 20, 30]], [] ++ [[0]], snapW⟩ ∧
     serverStep (fun b => b) 1
        ⟨seg1 (enc16 0 ++ (enc32 ([10, 20, 30] : List Nat).length ++
           ([10, 20, 30] ++ []))), [], [], snapW⟩ =
      .next ⟨seg1 [], [] ++ [[10, 20, 30]], [] ++ [[0]], snapW⟩) :=
  ⟨by decide, by decide, by decide,
   body_fragmentation_insensitive (fun b => b) [10, 20, 30] [[10], [20, 30]]
     [] [] snapW (by decide) (by decide) (by decide)⟩

/-- C4 evaluation at the failing input: when the peer closes the
connection after the id and length but before the body (every further recv
returns zero bytes), the body-accumulation loop of Server.run never makes
progress, so the receive loop does not terminate no matter how many recv
calls it is allowed; the claim that every connection loss ends the loop
fails here. -/
theorem closed_mid_body_spins_forever {α : Type} (jdec : List Nat → α)
    (fuel : Nat) (q : List α) (out : List (List Nat)) (snap : Snap) :
    serverStep jdec fuel ⟨[[0, 0], [1, 0, 0, 0]], q, out, snap⟩ = .spin := by
  have h1 : recvRaw 2 [[0, 0], [1, 0, 0, 0]] = ([0, 0], [[1, 0, 0, 0]]) := rfl
  have h2 : recvRaw 4 [[1, 0, 0, 0]] = ([1, 0, 0, 0], []) := rfl
  have h3 : recvExact fuel 1 [] [] = none := recvExact_closed fuel 0 []
  simp [serverStep, h1, h2, leNat, h3]

/-- C5: when every connection attempt fails, Server.init makes exactly 3
attempts with a 1-second sleep after each failure and the process exits
with the nonzero status -1; no further attempts occur. -/
theorem connect_exhaustion_exits_nonzero (ok : Nat → Bool)
    (hfail : ∀ i, i < 3 → ok i = false) :
    serverConnect ok = .exited (-1) 3 3 ∧ ((-1 : Int) ≠ 0) := by
  have h0 := hfail 0 (by norm_num)
  have h1 := hfail 1 (by norm_num)
  have h2 := hfail 2 (by norm_num)
  refine ⟨?_, by norm_num⟩
  simp [serverConnect, connectAttempts, h0, h1, h2]

theorem connect_exhaustion_exits_nonzero_witness :
    (∀ i, i < 3 → (fun (_ : Nat) => false) i = false) ∧
    (serverConnect (fun _ => false) = .exited (-1) 3 3 ∧ ((-1 : Int) ≠ 0)) :=
  ⟨fun _ _ => rfl,
   connect_exhaustion_exits_nonzero (fun _ => false) (fun _ _ => rfl)⟩

/-- C6: publish immediately followed by the snapshot read of get_img
returns exactly the published triple; the reader sees the complete new
snapshot, all three fields from the same publish. -/
theorem publish_readSnapshot_roundtrip (w h : Nat) (px : List Nat)
    (s : Snap) (dt : List Nat) :
    get_img (publish w h px s) dt = (w, h, px) := rfl

/-- C7: for every wire view matrix with nonzero determinant, the model
transform installed by the conversion task is the exact mathematical
inverse of that matrix: it is a two-sided inverse on every entry of the
4 by 4 block. -/
theorem installed_transform_is_exact_inverse (M : Mat4) (i j : Nat)
    (hdet : det4q M ≠ 0) (hi : i < 4) (hj : j < 4) :
    mul4 (installedModelTransform M) M i j = id4 i j ∧
    mul4 M (installedModelTransform M) i j = id4 i j :=
  ⟨mul4_invert4_left M hdet i j hi hj, mul4_invert4_right M hdet i j hi hj⟩

theorem installed_transform_is_exact_inverse_witness :
    det4q testMat ≠ 0 ∧ (0 : Nat) < 4 ∧ (1 : Nat) < 4 ∧
    (mul4 (installedModelTransform testMat) testMat 0 1 = id4 0 1 ∧
     mul4 testMat (installedModelTransform testMat) 0 1 = id4 0 1) :=
  ⟨by norm_num [testMat, det4q, det3q], by norm_num, by norm_num,
   installed_transform_is_exact_inverse testMat 0 1
     (by norm_num [testMat, det4q, det3q]) (by norm_num) (by norm_num)⟩

/-- C8: a message whose id is neither 0 nor 1 consumes only its 2 id
bytes, is answered with exactly one 1-byte 0 ack, leaves the conversion
queue and the frame snapshot unchanged, and the session continues. -/
theorem unknown_id_acked_state_unchanged {α : Type} (jdec : List Nat → α)
    (fuel : Nat) (m : Nat) (rest : List Nat) (q : List α)
    (out : List (List Nat)) (snap : Snap)
    (hm : m < 65536) (h0 : m ≠ 0) (h1 : m ≠ 1) :
    serverStep jdec fuel ⟨seg1 (enc16 m ++ rest), q, out, snap⟩ =
      .next ⟨seg1 rest, q, out ++ [[0]], snap⟩ := by
  have htake2 : (enc16 m ++ rest).take 2 = enc16 m :=
    List.take_left' (enc16_length m)
  have hdrop2 : (enc16 m ++ rest).drop 2 = rest :=
    List.drop_left' (enc16_length m)
  simp only [serverStep, recvRaw_seg1, htake2, hdrop2, enc16_length,
    leNat_enc16 m hm]
  simp [h0, h1]

theorem unknown_id_acked_state_unchanged_witness :
    (7 : Nat) < 65536 ∧ (7 : Nat) ≠ 0 ∧ (7 : Nat) ≠ 1 ∧
    serverStep (fun b => b) 0 ⟨seg1 (enc16 7 ++ [9, 9]), [], [], snapW⟩ =
      .next ⟨seg1 [9, 9], [], [[0]], snapW⟩ :=
  ⟨by decide, by decide, by decide,
   unknown_id_acked_state_unchanged (fun b => b) 0 7 [9, 9] [] [] snapW
     (by decide) (by decide) (by decide)⟩

/-- C9: make_offscreen is idempotent: two calls with the same size perform
the expensive reallocation at most once, the second call returns the state
unchanged, and the surface identity is unchanged by the second call. -/
theorem make_offscreen_idempotent (sx sy : Nat) (st : SurfaceState) :
    make_offscreen sx sy (make_offscreen sx sy st) = make_offscreen sx sy st ∧
    (make_offscreen sx sy (make_offscreen sx sy st)).allocCount ≤
      st.allocCount + 1 ∧
    (make_offscreen sx sy (make_offscreen sx sy st)).win =
      (make_offscreen sx sy st).win := by
  rcases st with ⟨win, ac, ni⟩
  cases win with
  | none => simp [make_offscreen]
  | some t =>
      rcases t with ⟨w, ⟨h, idv⟩⟩
      by_cases hws : w = sx ∧ h = sy <;> simp [make_offscreen, hws]

/-- C10: a content-update payload whose viewport directives contain the
key width but not the key height makes the conversion task read viewd at
height unconditionally, raising a lookup error while processing the
payload. -/
theorem width_without_height_keyerror (viewd : List (String × Nat))
    (surf : SurfaceState)
    (hw : dictContains "width" viewd = true)
    (hh : dictContains "height" viewd = false) :
    applyViewportSize viewd surf = .error "KeyError: height" := by
  obtain ⟨w, hwl⟩ : ∃ w, dictLookup "width" viewd = some w := by
    unfold dictContains at hw
    exact Option.isSome_iff_exists.mp hw
  have hhl : dictLookup "height" viewd = none := by
    cases hcase : dictLookup "height" viewd with
    | none => rfl
    | some v =>
        unfold dictContains at hh
        rw [hcase] at hh
        simp at hh
  simp [applyViewportSize, hw, hwl, hhl]

theorem width_without_height_keyerror_witness :
    dictContains "width" [("width", 800)] = true ∧
    dictContains "height" [("width", 800)] = false ∧
    applyViewportSize [("width", 800)] ⟨none, 0, 0⟩ =
      .error "KeyError: height" :=
  ⟨by decide, by decide,
   width_without_height_keyerror [("width", 800)] ⟨none, 0, 0⟩
     (by decide) (by decide)⟩

end ProcessorApp
